import Mathlib

/-!
Shallow embedding of the missed-block-detection core of the
eth-validator-watcher repository: the function `handler_event` in
`eth_validator_watcher/entrypoint.py` (and its near-identical sibling
`handle_missed_block_detection` in `eth_validator_watcher/missed_blocks.py`),
together with the event loop of `handler_async`.

Slot numbers are modelled as `Int` (Python integers); the external beacon
queries are modelled as an explicit environment whose calls can fail, and
the per-slot side effects (printed message, Prometheus counter increment)
are collected into a `SlotReport` value per processed slot.
-/

namespace EthValidatorWatcher

/-- Protocol constant from entrypoint.py line 15: 32 slots per epoch. -/
def NB_SLOT_PER_EPOCH : Int := 32

/-- Model of `SlotWithStatus`: a slot number and whether the block proposal
for that slot was missed. -/
structure SlotWithStatus where
  number : Int
  missed : Bool
deriving DecidableEq

/-- One item of the `data` list of a proposer-duties response: the proposer
public key and the slot it is assigned to propose at. -/
structure ProposerDutyData where
  pubkey : String
  slot : Int
deriving DecidableEq

/-- Python `range(lo, hi)` over integers, as a list. -/
def intRange (lo hi : Int) : List Int :=
  (List.range (hi - lo).toNat).map (fun (i : Nat) => lo + (i : Int))

/-- Lines 68-77 of entrypoint.py (lines 36-41 of missed_blocks.py): the list
of slots evaluated by one tick, in order: every slot strictly between the
previous slot and the current slot marked missed, then the current slot
marked not missed.  When the previous slot is `none` (first tick) the code
substitutes `current - 1`. -/
def slotsWithStatus (previousSlot : Option Int) (currentSlot : Int) :
    List SlotWithStatus :=
  let prev : Int :=
    match previousSlot with
    | none => currentSlot - 1
    | some p => p
  (intRange (prev + 1) currentSlot).map
      (fun s => ({ number := s, missed := true } : SlotWithStatus))
    ++ [{ number := currentSlot, missed := false }]

/-- Failure modes of one slot's processing: an upstream beacon query can
fail to respond, and the duty lookup (`next` with no default in the source,
line 96 of entrypoint.py) can find no entry for the slot and raise. -/
inductive HandlerError where
  | upstreamUnavailable : HandlerError
  | dutyNotFound : Int → HandlerError
deriving DecidableEq

/-- External collaborators consulted while processing one tick: the
proposer-duty query, indexed by epoch, and the watched-pubkey sources
(file and web3signer, already unioned into one set).  Either can fail;
the environment is fixed for the duration of one tick. -/
structure Env where
  getDuties : Int → Except Unit (List ProposerDutyData)
  getPubkeys : Except Unit (Finset String)

/-- Lines 96-102 of entrypoint.py (lines 54-60 of missed_blocks.py): the
first duty entry whose slot field equals the requested slot — `next` over
the data list filtered on slot — or `none` when no entry matches. -/
def resolveProposer (duties : List ProposerDutyData) (slot : Int) :
    Option String :=
  (duties.find? (fun d => d.slot == slot)).map ProposerDutyData.pubkey

/-- Observable outcome of processing one slot (lines 126-145 of
entrypoint.py): the printed report line, the resolved proposer, whether it
is one of ours, and whether the missed-block-proposals counter is
incremented for this slot. -/
structure SlotReport where
  slot : Int
  missed : Bool
  proposerPubkey : String
  isOurValidator : Bool
  message : String
  counterInc : Bool
deriving DecidableEq

/-- Body of the per-slot loop, lines 79-145 of entrypoint.py: fetch the
duty table of epoch `slot // 32`, resolve the proposer by slot number,
load the watched pubkeys, and build the report.  A failing upstream query
aborts with `upstreamUnavailable`; a missing duty entry aborts with
`dutyNotFound` (the bare `next` raises). -/
def processSlot (env : Env) (s : SlotWithStatus) :
    Except HandlerError SlotReport :=
  match env.getDuties (Int.fdiv s.number NB_SLOT_PER_EPOCH) with
  | .error _ => .error .upstreamUnavailable
  | .ok dutiesData =>
    match resolveProposer dutiesData s.number with
    | none => .error (.dutyNotFound s.number)
    | some pk =>
      match env.getPubkeys with
      | .error _ => .error .upstreamUnavailable
      | .ok pubkeys =>
        let isOur : Bool := decide (pk ∈ pubkeys)
        let positiveEmoji : String := if isOur then "✨" else "✅"
        let negativeEmoji : String := if isOur then "❌" else "💩"
        let emoji : String := if s.missed then negativeEmoji else positiveEmoji
        let proposedOrMissed : String := if s.missed then "missed  " else "proposed"
        let ourTag : String := if isOur then "Our " else "    "
        let message : String :=
          emoji ++ " " ++ ourTag ++ "validator " ++ pk ++ " " ++ proposedOrMissed
            ++ " block " ++ toString s.number ++ " " ++ emoji ++ " - 🔑 "
            ++ toString pubkeys.card ++ " keys watched"
        .ok { slot := s.number, missed := s.missed, proposerPubkey := pk,
              isOurValidator := isOur, message := message,
              counterInc := isOur && s.missed }

/-- The per-slot loop of lines 79-145: slots processed in order, the first
failure aborting the remainder of the tick. -/
def processSlots (env : Env) :
    List SlotWithStatus → Except HandlerError (List SlotReport)
  | [] => .ok []
  | s :: rest =>
    match processSlot env s with
    | .error e => .error e
    | .ok r =>
      match processSlots env rest with
      | .error e => .error e
      | .ok rs => .ok (r :: rs)

/-- `handler_event` (entrypoint.py lines 21-147): build the slot list for
the tick, process each slot, and return the reports together with the
current slot number — the value the caller feeds back as the next
previous slot. -/
def handlerEvent (env : Env) (previousSlot : Option Int) (currentSlot : Int) :
    Except HandlerError (List SlotReport × Int) :=
  match processSlots env (slotsWithStatus previousSlot currentSlot) with
  | .error e => .error e
  | .ok reports => .ok (reports, currentSlot)

/-- The event loop of `handler_async` (lines 186-199): the previous slot
starts at `none` and is assigned the handler's return value after each
successfully handled event; an exception ends the loop carrying the state
it had before the failing tick.  Returns the final previous-slot state. -/
def runTicks (env : Env) : Option Int → List Int → Option Int
  | prev, [] => prev
  | prev, t :: ts =>
    match handlerEvent env prev t with
    | .ok (_, n) => runTicks env (some n) ts
    | .error _ => prev

/-- The SlotOutcome lists produced by a sequence of ticks when each tick's
returned slot is fed back as the next previous slot. -/
def ticksOutcomes : Option Int → List Int → List (List SlotWithStatus)
  | _, [] => []
  | prev, t :: ts => slotsWithStatus prev t :: ticksOutcomes (some t) ts

/-- All slot numbers emitted over a sequence of ticks, in emission order. -/
def emittedNumbers (prev : Option Int) (ticks : List Int) : List Int :=
  ((ticksOutcomes prev ticks).map (fun l => l.map SlotWithStatus.number)).flatten

/-- Total number of `missed_block_proposals_counter.inc()` calls recorded
in a list of slot reports (lines 144-145 of entrypoint.py: incremented
when the proposer is ours and the slot was missed). -/
def counterIncrease (reports : List SlotReport) : Nat :=
  reports.countP SlotReport.counterInc

/-- The report list of a successful handler result (empty on failure);
lets concrete runs be stated without spelling out report literals. -/
def okReports (e : Except HandlerError (List SlotReport × Int)) :
    List SlotReport :=
  match e with
  | .ok (r, _) => r
  | .error _ => []

/-- The ASCII whitespace characters removed by Python `str.strip()`. -/
def pyIsSpace (c : Char) : Bool :=
  c == ' ' || c == '\t' || c == '\n' || c == '\r'
    || c == Char.ofNat 11 || c == Char.ofNat 12

/-- Python `line.strip()`: remove leading and trailing whitespace. -/
def pyStrip (s : String) : String :=
  String.mk (((s.toList.dropWhile pyIsSpace).reverse.dropWhile pyIsSpace).reverse)

/-- Lines 43-51 of entrypoint.py: each line of the file, stripped, is
preceded by the literal characters `0x` and the results are collected into
a set.  The file is modelled by its list of lines. -/
def load_pubkeys_from_file (lines : List String) : Finset String :=
  (lines.map (fun line => "0x" ++ pyStrip line)).toFinset

/-! Basic lemmas about the slot list of one tick. -/

lemma slotsWithStatus_some (p t : Int) :
    slotsWithStatus (some p) t
      = (intRange (p + 1) t).map
          (fun s => ({ number := s, missed := true } : SlotWithStatus))
        ++ [{ number := t, missed := false }] := rfl

lemma mem_intRange {lo hi s : Int} : s ∈ intRange lo hi ↔ lo ≤ s ∧ s < hi := by
  unfold intRange
  simp only [List.mem_map, List.mem_range]
  constructor
  · rintro ⟨i, hlt, rfl⟩
    omega
  · intro h
    exact ⟨(s - lo).toNat, by omega, by omega⟩

lemma nodup_intRange (lo hi : Int) : (intRange lo hi).Nodup := by
  unfold intRange
  exact List.Nodup.map (fun a b h => by omega) (List.nodup_range _)

lemma map_number_slotsWithStatus (p t : Int) :
    (slotsWithStatus (some p) t).map SlotWithStatus.number
      = intRange (p + 1) t ++ [t] := by
  rw [slotsWithStatus_some]
  simp [List.map_append, List.map_map, Function.comp_def]

lemma mem_map_number_slotsWithStatus {p t s : Int} :
    s ∈ (slotsWithStatus (some p) t).map SlotWithStatus.number
      ↔ (p < s ∧ s < t) ∨ s = t := by
  rw [map_number_slotsWithStatus]
  simp only [List.mem_append, mem_intRange, List.mem_singleton]
  omega

lemma nodup_map_number_slotsWithStatus (p t : Int) :
    ((slotsWithStatus (some p) t).map SlotWithStatus.number).Nodup := by
  rw [map_number_slotsWithStatus]
  refine List.nodup_append.mpr ⟨nodup_intRange _ _, List.nodup_singleton _, ?_⟩
  intro a ha hb
  rw [mem_intRange] at ha
  simp only [List.mem_singleton] at hb
  omega

lemma slotsWithStatus_none (n : Int) :
    slotsWithStatus none n = [{ number := n, missed := false }] := by
  have h : (n - (n - 1 + 1)).toNat = 0 := by omega
  simp [slotsWithStatus, intRange, h]

lemma emittedNumbers_nil (prev : Option Int) : emittedNumbers prev [] = [] := rfl

lemma emittedNumbers_cons (prev : Option Int) (t : Int) (ts : List Int) :
    emittedNumbers prev (t :: ts)
      = (slotsWithStatus prev t).map SlotWithStatus.number
        ++ emittedNumbers (some t) ts := by
  simp [emittedNumbers, ticksOutcomes]

/-- Over a strictly increasing tick sequence starting above `p`, the emitted
slot numbers are distinct and all exceed `p`. -/
lemma emittedNumbers_nodup_bound (ticks : List Int) :
    ∀ p : Int, List.Chain (fun a b => a < b) p ticks →
      (emittedNumbers (some p) ticks).Nodup
        ∧ ∀ s ∈ emittedNumbers (some p) ticks, p < s := by
  induction ticks with
  | nil =>
    intro p _
    exact ⟨List.nodup_nil, by simp [emittedNumbers_nil]⟩
  | cons t ts ih =>
    intro p hchain
    rcases List.chain_cons.mp hchain with ⟨hpt, hrest⟩
    obtain ⟨ihnodup, ihbound⟩ := ih t hrest
    rw [emittedNumbers_cons]
    constructor
    · refine List.nodup_append.mpr
        ⟨nodup_map_number_slotsWithStatus _ _, ihnodup, ?_⟩
      intro a ha hb
      have h1 := mem_map_number_slotsWithStatus.mp ha
      have h2 := ihbound a hb
      omega
    · intro s hs
      rcases List.mem_append.mp hs with h | h
      · have := mem_map_number_slotsWithStatus.mp h
        omega
      · have := ihbound s h
        omega

/-- Claim C7: on the first tick (no previous slot, observed slot N) the
handler treats the previous slot as N - 1 and evaluates exactly one slot,
N itself, with missed = false; in particular with first observed slot 63
only slot 63 is evaluated. -/
theorem first_tick_evaluates_only_current (N : Int) :
    slotsWithStatus none N = [{ number := N, missed := false }] ∧
    slotsWithStatus none 63 = [{ number := 63, missed := false }] :=
  ⟨slotsWithStatus_none N, slotsWithStatus_none 63⟩

/-- Claim C1: a tick is triggered by a block event for its slot, so block
presence holds at the triggering slot; for a gapless tick (current slot =
previous + 1) exactly one SlotOutcome is produced, for the triggering slot,
and its missed flag is true exactly when the block-presence predicate is
false at that slot. -/
theorem missed_iff_block_absent (hasBlockAtSlot : Int → Bool) (P N : Int)
    (hblock : hasBlockAtSlot N = true) (hnogap : N = P + 1) :
    slotsWithStatus (some P) N = [{ number := N, missed := false }] ∧
    ∀ o ∈ slotsWithStatus (some P) N,
      (o.missed = true ↔ hasBlockAtSlot o.number = false) := by
  subst hnogap
  have h0 : ((P + 1) - (P + 1)).toNat = 0 := by omega
  have h1 : slotsWithStatus (some P) (P + 1)
      = [{ number := P + 1, missed := false }] := by
    rw [slotsWithStatus_some]
    simp [intRange, h0]
  refine ⟨h1, ?_⟩
  intro o ho
  rw [h1, List.mem_singleton] at ho
  subst ho
  simp [hblock]

/-- Claim C1 witness: a gapless tick from slot 4 to slot 5 with a block
present at slot 5. -/
theorem missed_iff_block_absent_witness :
    ((fun _ : Int => true) 5 = true) ∧ ((5 : Int) = 4 + 1) ∧
    (slotsWithStatus (some 4) 5 = [{ number := 5, missed := false }] ∧
      ∀ o ∈ slotsWithStatus (some 4) 5,
        (o.missed = true ↔ (fun _ : Int => true) o.number = false)) :=
  ⟨rfl, by norm_num, missed_iff_block_absent (fun _ => true) 4 5 rfl (by norm_num)⟩

/-- Claim C2: a gapped tick from previous slot P to observed slot N with
N > P + 1 produces exactly one SlotOutcome for each slot of (P, N] — the
emitted slot numbers are exactly that interval, without duplicates — every
slot strictly below N is marked missed, and slot N is marked not missed. -/
theorem gap_catchup_outcomes (P N : Int) (h : P + 1 < N) :
    (∀ s : Int, s ∈ (slotsWithStatus (some P) N).map SlotWithStatus.number
        ↔ (P < s ∧ s ≤ N)) ∧
    ((slotsWithStatus (some P) N).map SlotWithStatus.number).Nodup ∧
    (∀ o ∈ slotsWithStatus (some P) N, o.number < N → o.missed = true) ∧
    (∀ o ∈ slotsWithStatus (some P) N, o.number = N → o.missed = false) := by
  refine ⟨?_, nodup_map_number_slotsWithStatus _ _, ?_, ?_⟩
  · intro s
    rw [mem_map_number_slotsWithStatus]
    omega
  · intro o ho hlt
    rw [slotsWithStatus_some] at ho
    rcases List.mem_append.mp ho with h1 | h1
    · rcases List.mem_map.mp h1 with ⟨s, _, rfl⟩
      rfl
    · rw [List.mem_singleton] at h1
      subst h1
      exact absurd hlt (by simp)
  · intro o ho heq
    rw [slotsWithStatus_some] at ho
    rcases List.mem_append.mp ho with h1 | h1
    · rcases List.mem_map.mp h1 with ⟨s, hs, rfl⟩
      rw [mem_intRange] at hs
      simp only at heq
      omega
    · rw [List.mem_singleton] at h1
      subst h1
      rfl

/-- Claim C2 witness: the gapped tick from previous slot 0 to slot 3. -/
theorem gap_catchup_outcomes_witness :
    ((0 : Int) + 1 < 3) ∧
    ((∀ s : Int, s ∈ (slotsWithStatus (some 0) 3).map SlotWithStatus.number
        ↔ (0 < s ∧ s ≤ 3)) ∧
      ((slotsWithStatus (some 0) 3).map SlotWithStatus.number).Nodup ∧
      (∀ o ∈ slotsWithStatus (some 0) 3, o.number < 3 → o.missed = true) ∧
      (∀ o ∈ slotsWithStatus (some 0) 3, o.number = 3 → o.missed = false)) :=
  ⟨by norm_num, gap_catchup_outcomes 0 3 (by norm_num)⟩

/-- Claim C3 counterexample: two successive ticks that both carry slot 5
(the second tick's slot is not greater than the first's) each emit a
SlotOutcome for slot 5, so the emitted slot numbers of the run are not
distinct — slot 5 is reported by two different ticks. -/
theorem repeated_tick_double_reports_counterexample :
    ticksOutcomes none [(5 : Int), 5]
      = [[{ number := 5, missed := false }], [{ number := 5, missed := false }]] ∧
    emittedNumbers none [(5 : Int), 5] = [5, 5] ∧
    ¬ (emittedNumbers none [(5 : Int), 5]).Nodup := by
  refine ⟨rfl, rfl, by decide⟩

/-- Claim C3 (amended): within one continuous run, no slot is reported twice
inside one tick, and — provided the tick slot numbers are strictly
increasing — no slot number is ever emitted by more than one tick: the
whole emitted slot-number sequence of the run is duplicate-free. -/
theorem emitted_slots_unique_of_increasing (ticks : List Int)
    (h : List.Chain' (fun a b : Int => a < b) ticks) :
    (emittedNumbers none ticks).Nodup ∧
    ∀ (prev : Option Int) (t : Int),
      ((slotsWithStatus prev t).map SlotWithStatus.number).Nodup := by
  constructor
  · cases ticks with
    | nil => simp [emittedNumbers_nil]
    | cons t ts =>
      rw [emittedNumbers_cons, slotsWithStatus_none]
      have hchain : List.Chain (fun a b : Int => a < b) t ts := h
      obtain ⟨hnodup, hbound⟩ := emittedNumbers_nodup_bound ts t hchain
      refine List.nodup_append.mpr ⟨List.nodup_singleton _, hnodup, ?_⟩
      intro a ha hb
      simp only [List.map_cons, List.map_nil, List.mem_singleton] at ha
      subst ha
      exact absurd (hbound a hb) (lt_irrefl a)
  · intro prev t
    cases prev with
    | none => rw [slotsWithStatus_none]; simp
    | some p => exact nodup_map_number_slotsWithStatus p t

/-- Claim C3 (amended) witness: the strictly increasing tick sequence
3, 5, 6 emits each slot number at most once. -/
theorem emitted_slots_unique_of_increasing_witness :
    List.Chain' (fun a b : Int => a < b) [3, 5, 6] ∧
    ((emittedNumbers none [(3 : Int), 5, 6]).Nodup ∧
      ∀ (prev : Option Int) (t : Int),
        ((slotsWithStatus prev t).map SlotWithStatus.number).Nodup) :=
  ⟨by norm_num [List.chain'_cons, List.chain'_singleton],
    emitted_slots_unique_of_increasing [3, 5, 6]
      (by norm_num [List.chain'_cons, List.chain'_singleton])⟩

/-! Inversion lemmas for the per-slot loop and for `handlerEvent`. -/

lemma processSlots_ok_mem {env : Env} {l : List SlotWithStatus}
    {rs : List SlotReport} (h : processSlots env l = .ok rs) :
    ∀ s ∈ l, ∃ r, processSlot env s = .ok r := by
  induction l generalizing rs with
  | nil => intro s hs; exact absurd hs (List.not_mem_nil s)
  | cons a l ih =>
    intro s hs
    simp only [processSlots] at h
    split at h
    next e heq => simp at h
    next r heq =>
      split at h
      next e2 heq2 => simp at h
      next rs2 heq2 =>
        rcases List.mem_cons.mp hs with rfl | hs2
        · exact ⟨r, heq⟩
        · exact ih heq2 s hs2

lemma processSlots_ok_forall2 {env : Env} {l : List SlotWithStatus}
    {rs : List SlotReport} (h : processSlots env l = .ok rs) :
    List.Forall₂ (fun s r => processSlot env s = .ok r) l rs := by
  induction l generalizing rs with
  | nil =>
    simp only [processSlots] at h
    cases h
    exact List.Forall₂.nil
  | cons a l ih =>
    simp only [processSlots] at h
    split at h
    next e heq => simp at h
    next r heq =>
      split at h
      next e2 heq2 => simp at h
      next rs2 heq2 =>
        cases h
        exact List.Forall₂.cons heq (ih heq2)

lemma forall2_mem_right {α β : Type} {R : α → β → Prop} {l : List α}
    {l2 : List β} (h : List.Forall₂ R l l2) : ∀ b ∈ l2, ∃ a ∈ l, R a b := by
  induction h with
  | nil => intro b hb; exact absurd hb (List.not_mem_nil b)
  | cons hab hrest ih =>
    intro b hb
    rcases List.mem_cons.mp hb with rfl | hb2
    · exact ⟨_, List.mem_cons_self _ _, hab⟩
    · obtain ⟨a, ha, hR⟩ := ih b hb2
      exact ⟨a, List.mem_cons_of_mem _ ha, hR⟩

lemma handlerEvent_ok_inv {env : Env} {prev : Option Int} {N n : Int}
    {reports : List SlotReport}
    (h : handlerEvent env prev N = .ok (reports, n)) :
    processSlots env (slotsWithStatus prev N) = .ok reports ∧ n = N := by
  unfold handlerEvent at h
  split at h
  next e heq => simp at h
  next rs heq =>
    obtain ⟨h1, h2⟩ := Prod.mk.injEq .. ▸ (Except.ok.inj h)
    exact ⟨h1 ▸ heq, h2.symm⟩

lemma processSlot_ok_fields {env : Env} {s : SlotWithStatus} {r : SlotReport}
    {pubkeys : Finset String} (hpk : env.getPubkeys = .ok pubkeys)
    (h : processSlot env s = .ok r) :
    r.slot = s.number ∧ r.missed = s.missed ∧
    r.counterInc = (decide (r.proposerPubkey ∈ pubkeys) && r.missed) := by
  unfold processSlot at h
  split at h
  next heq => simp at h
  next dutiesData heq =>
    split at h
    next heq2 => simp at h
    next pk heq2 =>
      split at h
      next heq3 => simp at h
      next pubkeys2 heq3 =>
        have hpk2 : pubkeys2 = pubkeys := by
          rw [hpk] at heq3
          exact (Except.ok.inj heq3).symm
        subst hpk2
        cases (Except.ok.inj h)
        refine ⟨rfl, rfl, rfl⟩

/-- Claim C4 (amended): when the fetched duty table has no entry for a slot
of the tick, proposer resolution fails loudly — the slot's processing
yields `dutyNotFound`, never a silent "proposed" report — and the failure
is fatal to the entire tick, not just to that slot: the handler can return
no successful result, so no remaining slot of the tick is processed. -/
theorem duty_not_found_aborts_tick (env : Env) (prev : Option Int) (N : Int)
    (s : SlotWithStatus) (duties : List ProposerDutyData)
    (hmem : s ∈ slotsWithStatus prev N)
    (hduties : env.getDuties (Int.fdiv s.number NB_SLOT_PER_EPOCH) = .ok duties)
    (hnone : resolveProposer duties s.number = none) :
    processSlot env s = .error (.dutyNotFound s.number) ∧
    ∀ r : List SlotReport × Int, handlerEvent env prev N ≠ .ok r := by
  have hps : processSlot env s = .error (.dutyNotFound s.number) := by
    simp [processSlot, hduties, hnone]
  refine ⟨hps, ?_⟩
  rintro ⟨reports, n⟩ hok
  obtain ⟨h1, _⟩ := handlerEvent_ok_inv hok
  obtain ⟨r, hr⟩ := processSlots_ok_mem h1 s hmem
  rw [hps] at hr
  exact Except.noConfusion hr

/-- Duty table used by the Claim C4 counterexample and by the Claim C4
witness: entries for slots 1 and 3 only. -/
def dutiesGapTable : List ProposerDutyData :=
  [{ pubkey := "0xaaa", slot := 1 }, { pubkey := "0xccc", slot := 3 }]

/-- Environment whose duty query always answers `dutiesGapTable` and whose
watched set is empty. -/
def envDutyGap : Env where
  getDuties := fun _ => .ok dutiesGapTable
  getPubkeys := .ok ∅

/-- Claim C4 counterexample: the duty table has entries for slots 1 and 3
but none for slot 2; on the tick from previous slot 0 to slot 3 the claim
says slot 2 alone is skipped and slot 3 is still processed, but the code
aborts the whole tick with `dutyNotFound 2` — no report is produced for
any slot and no successful result exists. -/
theorem duty_not_found_tick_counterexample :
    (resolveProposer dutiesGapTable 3).isSome = true ∧
    resolveProposer dutiesGapTable 2 = none ∧
    handlerEvent envDutyGap (some 0) 3 = .error (.dutyNotFound 2) :=
  ⟨rfl, rfl, rfl⟩

/-- Claim C4 (amended) witness: on the tick from previous slot 0 to slot 3
against `envDutyGap`, slot 2 of the tick has no duty entry, its processing
fails with `dutyNotFound 2`, and the handler has no successful result. -/
theorem duty_not_found_aborts_tick_witness :
    (({ number := 2, missed := true } : SlotWithStatus)
        ∈ slotsWithStatus (some 0) 3) ∧
    (envDutyGap.getDuties (Int.fdiv 2 NB_SLOT_PER_EPOCH) = .ok dutiesGapTable) ∧
    (resolveProposer dutiesGapTable 2 = none) ∧
    (processSlot envDutyGap { number := 2, missed := true }
        = .error (.dutyNotFound 2) ∧
      ∀ r : List SlotReport × Int,
        handlerEvent envDutyGap (some 0) 3 ≠ .ok r) :=
  ⟨by decide, rfl, rfl,
    duty_not_found_aborts_tick envDutyGap (some 0) 3
      { number := 2, missed := true } dutiesGapTable (by decide) rfl rfl⟩

/-- Claim C5: a tick whose handler fails is abandoned without advancing the
last processed slot — the event loop's previous-slot state after the
failing tick equals the state it had before that tick began, the state
being reassigned only from a successfully completed tick. -/
theorem failed_tick_keeps_state (env : Env) (prev : Option Int) (N : Int)
    (ts : List Int) (e : HandlerError)
    (herr : handlerEvent env prev N = .error e) :
    runTicks env prev (N :: ts) = prev := by
  simp only [runTicks, herr]

/-- Environment every duty query of which fails (upstream unavailable). -/
def envFail : Env where
  getDuties := fun _ => .error ()
  getPubkeys := .ok ∅

/-- Claim C5 witness: with every duty query failing, the tick at slot 7
fails and the loop state stays at slot 3. -/
theorem failed_tick_keeps_state_witness :
    handlerEvent envFail (some 3) 7 = .error .upstreamUnavailable ∧
    runTicks envFail (some 3) [7] = some 3 :=
  ⟨rfl, failed_tick_keeps_state envFail (some 3) 7 [] .upstreamUnavailable rfl⟩

/-- Claim C9: on a non-increasing tick (observed slot N at most the
previous slot P) the handler still emits exactly one SlotOutcome, for slot
N with missed = false, and returns N, so the stored previous slot moves
backward; every slot of (N, P] is then emitted again by a later tick at
P + 1, so strictly increasing tick slots are a precondition of the
exactly-once guarantee. -/
theorem nonincreasing_tick_rewinds (P N : Int) (h : N ≤ P) :
    slotsWithStatus (some P) N = [{ number := N, missed := false }] ∧
    (∀ (env : Env) (reports : List SlotReport) (n : Int),
      handlerEvent env (some P) N = .ok (reports, n) → n = N) ∧
    (∀ s : Int, N < s → s ≤ P →
      s ∈ (slotsWithStatus (some N) (P + 1)).map SlotWithStatus.number) := by
  refine ⟨?_, ?_, ?_⟩
  · rw [slotsWithStatus_some]
    have he : (N - (P + 1)).toNat = 0 := by omega
    simp [intRange, he]
  · intro env reports n hok
    exact (handlerEvent_ok_inv hok).2
  · intro s h1 h2
    rw [mem_map_number_slotsWithStatus]
    omega

/-- Claim C9 witness: a tick at slot 3 after previous slot 5 emits only
slot 3 and rewinds the state; slots 4 and 5 are re-emitted by a later tick
at slot 6. -/
theorem nonincreasing_tick_rewinds_witness :
    ((3 : Int) ≤ 5) ∧
    (slotsWithStatus (some 5) 3 = [{ number := 3, missed := false }] ∧
      (∀ (env : Env) (reports : List SlotReport) (n : Int),
        handlerEvent env (some 5) 3 = .ok (reports, n) → n = 3) ∧
      (∀ s : Int, 3 < s → s ≤ 5 →
        s ∈ (slotsWithStatus (some 3) (5 + 1)).map SlotWithStatus.number)) :=
  ⟨by norm_num, nonincreasing_tick_rewinds 5 3 (by norm_num)⟩

lemma processSlots_ok_maps {env : Env} {l : List SlotWithStatus}
    {rs : List SlotReport} {pubkeys : Finset String}
    (hpk : env.getPubkeys = .ok pubkeys)
    (h : processSlots env l = .ok rs) :
    rs.map SlotReport.slot = l.map SlotWithStatus.number ∧
    rs.map SlotReport.missed = l.map SlotWithStatus.missed := by
  have hf := processSlots_ok_forall2 h
  clear h
  induction hf with
  | nil => exact ⟨rfl, rfl⟩
  | cons hab hrest ih =>
    obtain ⟨h1, h2, _⟩ := processSlot_ok_fields hpk hab
    obtain ⟨ih1, ih2⟩ := ih
    exact ⟨by simp [h1, ih1], by simp [h2, ih2]⟩

/-- Claim C6: over a successfully completed tick, the missed-proposal
counter's total increase equals the number of reports whose resolved
proposer is in the watched set and whose slot was missed; each report's
increment happens exactly under that condition; and one report line is
produced per emitted SlotOutcome — same length, same slots, same missed
flags — regardless of watched status. -/
theorem counter_counts_watched_missed (env : Env) (prev : Option Int)
    (N : Int) (reports : List SlotReport) (n : Int) (pubkeys : Finset String)
    (hpk : env.getPubkeys = .ok pubkeys)
    (hok : handlerEvent env prev N = .ok (reports, n)) :
    counterIncrease reports
      = reports.countP (fun r => decide (r.proposerPubkey ∈ pubkeys) && r.missed) ∧
    (∀ r ∈ reports,
      (r.counterInc = true ↔ r.proposerPubkey ∈ pubkeys ∧ r.missed = true)) ∧
    reports.length = (slotsWithStatus prev N).length ∧
    reports.map SlotReport.slot
      = (slotsWithStatus prev N).map SlotWithStatus.number ∧
    reports.map SlotReport.missed
      = (slotsWithStatus prev N).map SlotWithStatus.missed := by
  obtain ⟨h1, _⟩ := handlerEvent_ok_inv hok
  have hf := processSlots_ok_forall2 h1
  have hfields : ∀ r ∈ reports,
      r.counterInc = (decide (r.proposerPubkey ∈ pubkeys) && r.missed) := by
    intro r hr
    obtain ⟨s, _, hsr⟩ := forall2_mem_right hf r hr
    exact (processSlot_ok_fields hpk hsr).2.2
  obtain ⟨hm1, hm2⟩ := processSlots_ok_maps hpk h1
  refine ⟨?_, ?_, ?_, hm1, hm2⟩
  · exact List.countP_congr (fun r hr => by simp [hfields r hr])
  · intro r hr
    rw [hfields r hr]
    simp
  · exact (List.Forall₂.length_eq hf).symm

/-- Duty table used by the Claim C6 and Claim C8 witnesses: the watched
validator 0xbbb proposes slot 1, the unwatched 0xaaa proposes slot 2. -/
def dutiesWatchTable : List ProposerDutyData :=
  [{ pubkey := "0xbbb", slot := 1 }, { pubkey := "0xaaa", slot := 2 }]

/-- The watched pubkey set of the Claim C6 and Claim C8 witnesses. -/
def watchedSet : Finset String := {"0xbbb"}

/-- Environment of the Claim C6 and Claim C8 witnesses. -/
def envWatch : Env where
  getDuties := fun _ => .ok dutiesWatchTable
  getPubkeys := .ok watchedSet

/-- Claim C6 witness: on the tick from previous slot 0 to slot 2, slot 1 is
missed and proposed by the watched 0xbbb, slot 2 is proposed by the
unwatched 0xaaa; the counter increases by exactly 1 and a report exists
for both slots. -/
theorem counter_counts_watched_missed_witness :
    (envWatch.getPubkeys = .ok watchedSet) ∧
    (handlerEvent envWatch (some 0) 2
      = .ok (okReports (handlerEvent envWatch (some 0) 2), 2)) ∧
    counterIncrease (okReports (handlerEvent envWatch (some 0) 2)) = 1 ∧
    (counterIncrease (okReports (handlerEvent envWatch (some 0) 2))
      = (okReports (handlerEvent envWatch (some 0) 2)).countP
          (fun r => decide (r.proposerPubkey ∈ watchedSet) && r.missed) ∧
    (∀ r ∈ okReports (handlerEvent envWatch (some 0) 2),
      (r.counterInc = true ↔ r.proposerPubkey ∈ watchedSet ∧ r.missed = true)) ∧
    (okReports (handlerEvent envWatch (some 0) 2)).length
      = (slotsWithStatus (some 0) 2).length ∧
    (okReports (handlerEvent envWatch (some 0) 2)).map SlotReport.slot
      = (slotsWithStatus (some 0) 2).map SlotWithStatus.number ∧
    (okReports (handlerEvent envWatch (some 0) 2)).map SlotReport.missed
      = (slotsWithStatus (some 0) 2).map SlotWithStatus.missed) :=
  ⟨rfl, rfl, rfl,
    counter_counts_watched_missed envWatch (some 0) 2
      (okReports (handlerEvent envWatch (some 0) 2)) 2 watchedSet rfl rfl⟩

/-! Duty resolution is by slot number, not by list position. -/

lemma resolveProposer_eq_of_mem {l : List ProposerDutyData} {s : Int}
    {d : ProposerDutyData}
    (huniq : ∀ d1 ∈ l, ∀ d2 ∈ l, d1.slot = d2.slot → d1 = d2)
    (hd : d ∈ l) (hs : d.slot = s) :
    resolveProposer l s = some d.pubkey := by
  unfold resolveProposer
  have hsome : (l.find? (fun x => x.slot == s)).isSome := by
    rw [List.find?_isSome]
    exact ⟨d, hd, by simp [hs]⟩
  obtain ⟨x, hx⟩ := Option.isSome_iff_exists.mp hsome
  have hxl := List.mem_of_find?_eq_some hx
  have hxp : x.slot = s := by simpa using List.find?_some hx
  have hxd : x = d := huniq x hxl d hd (by rw [hxp, hs])
  rw [hx, hxd]
  rfl

lemma processSlot_congr {envA envB : Env} {s : SlotWithStatus}
    (hd : envA.getDuties (Int.fdiv s.number NB_SLOT_PER_EPOCH)
        = envB.getDuties (Int.fdiv s.number NB_SLOT_PER_EPOCH))
    (hp : envA.getPubkeys = envB.getPubkeys) :
    processSlot envA s = processSlot envB s := by
  unfold processSlot
  rw [hd, hp]

lemma processSlots_congr {envA envB : Env} {l : List SlotWithStatus}
    (hd : ∀ s ∈ l, envA.getDuties (Int.fdiv s.number NB_SLOT_PER_EPOCH)
        = envB.getDuties (Int.fdiv s.number NB_SLOT_PER_EPOCH))
    (hp : envA.getPubkeys = envB.getPubkeys) :
    processSlots envA l = processSlots envB l := by
  induction l with
  | nil => rfl
  | cons a l ih =>
    simp only [processSlots]
    rw [processSlot_congr (hd a (List.mem_cons_self a l)) hp,
        ih (fun s hs => hd s (List.mem_cons_of_mem a hs))]

/-- Claim C8: proposer resolution indexes the duty table by slot number,
not by array position — for a duty list with at most one entry per slot,
any permutation of the list resolves a slot to the same pubkey, that of
the unique matching entry — and each catch-up step consults the duty table
of epoch `slot div 32`, recomputed per slot: two environments that agree
on those per-slot epochs (even across an epoch boundary) and on the
watched set make the handler produce identical results. -/
theorem duty_resolution_by_slot (l l2 : List ProposerDutyData) (s : Int)
    (d : ProposerDutyData) (envA envB : Env) (prev : Option Int) (N : Int)
    (hperm : List.Perm l l2)
    (huniq : ∀ d1 ∈ l, ∀ d2 ∈ l, d1.slot = d2.slot → d1 = d2)
    (hd : d ∈ l) (hs : d.slot = s)
    (hagree : ∀ o ∈ slotsWithStatus prev N,
      envA.getDuties (Int.fdiv o.number NB_SLOT_PER_EPOCH)
        = envB.getDuties (Int.fdiv o.number NB_SLOT_PER_EPOCH))
    (hpk : envA.getPubkeys = envB.getPubkeys) :
    resolveProposer l s = some d.pubkey ∧
    resolveProposer l2 s = some d.pubkey ∧
    handlerEvent envA prev N = handlerEvent envB prev N := by
  have huniq2 : ∀ d1 ∈ l2, ∀ d2 ∈ l2, d1.slot = d2.slot → d1 = d2 :=
    fun d1 h1 d2 h2 =>
      huniq d1 (hperm.mem_iff.mpr h1) d2 (hperm.mem_iff.mpr h2)
  refine ⟨resolveProposer_eq_of_mem huniq hd hs,
    resolveProposer_eq_of_mem huniq2 (hperm.mem_iff.mp hd) hs, ?_⟩
  unfold handlerEvent
  rw [processSlots_congr hagree hpk]

/-- Environment of the Claim C8 witness: it answers epoch 0 like `envWatch`
but fails on every other epoch, so it agrees with `envWatch` exactly on
the epochs of the witness tick's slots. -/
def envWatchEpoch0 : Env where
  getDuties := fun e => if e == 0 then .ok dutiesWatchTable else .error ()
  getPubkeys := .ok watchedSet

/-- Claim C8 witness: the two-entry duty table and its transposition both
resolve slot 2 to the unwatched 0xaaa, and the tick from previous slot 0
to slot 2 behaves identically against `envWatch` and against
`envWatchEpoch0`, which agree only on epoch 0 = 1 div 32 = 2 div 32. -/
theorem duty_resolution_by_slot_witness :
    List.Perm dutiesWatchTable
      [{ pubkey := "0xaaa", slot := 2 }, { pubkey := "0xbbb", slot := 1 }] ∧
    (resolveProposer dutiesWatchTable 2 = some "0xaaa" ∧
      resolveProposer
        [{ pubkey := "0xaaa", slot := 2 }, { pubkey := "0xbbb", slot := 1 }] 2
        = some "0xaaa" ∧
      handlerEvent envWatch (some 0) 2 = handlerEvent envWatchEpoch0 (some 0) 2) :=
  ⟨List.Perm.swap _ _ _,
    duty_resolution_by_slot dutiesWatchTable
      [{ pubkey := "0xaaa", slot := 2 }, { pubkey := "0xbbb", slot := 1 }] 2
      { pubkey := "0xaaa", slot := 2 } envWatch envWatchEpoch0 (some 0) 2
      (List.Perm.swap _ _ _) (by decide) (by decide) rfl
      (by
        intro o ho
        have hlist : slotsWithStatus (some 0) 2
            = [{ number := 1, missed := true }, { number := 2, missed := false }] :=
          rfl
        rw [hlist] at ho
        fin_cases ho <;> rfl)
      rfl⟩

lemma pyStrip_of_all_space {line : String}
    (h : ∀ c ∈ line.toList, pyIsSpace c = true) : pyStrip line = "" := by
  unfold pyStrip
  have h1 : line.toList.dropWhile pyIsSpace = [] :=
    List.dropWhile_eq_nil_iff.mpr h
  rw [h1]
  rfl

/-- Claim C10: loading watched pubkeys from a file yields, for every line,
the characters 0x prepended to the whitespace-stripped line, collected as
a set: membership is exactly the image of the lines, duplicate lines
collapse to one key, and an empty or whitespace-only line contributes the
bare entry 0x — so keys must be stored in the file without their leading
0x to match proposer pubkeys. -/
theorem load_pubkeys_from_file_image (lines : List String) :
    (∀ k : String, k ∈ load_pubkeys_from_file lines
        ↔ ∃ line ∈ lines, k = "0x" ++ pyStrip line) ∧
    (∀ line ∈ lines, (∀ c ∈ line.toList, pyIsSpace c = true) →
        ("0x" : String) ∈ load_pubkeys_from_file lines) ∧
    load_pubkeys_from_file (lines ++ lines) = load_pubkeys_from_file lines := by
  refine ⟨?_, ?_, ?_⟩
  · intro k
    unfold load_pubkeys_from_file
    rw [List.mem_toFinset, List.mem_map]
    constructor
    · rintro ⟨line, hl, rfl⟩
      exact ⟨line, hl, rfl⟩
    · rintro ⟨line, hl, rfl⟩
      exact ⟨line, hl, rfl⟩
  · intro line hl hsp
    unfold load_pubkeys_from_file
    rw [List.mem_toFinset, List.mem_map]
    refine ⟨line, hl, ?_⟩
    rw [pyStrip_of_all_space hsp]
    rfl
  · unfold load_pubkeys_from_file
    rw [List.map_append, List.toFinset_append, Finset.union_self]

/-- Claim C10 witness: the file lines "abc", "  " and a duplicated "abc"
load as exactly the keys 0xabc (duplicate collapsed) and the bare 0x from
the whitespace-only line. -/
theorem load_pubkeys_from_file_image_witness :
    ("0xabc" ∈ load_pubkeys_from_file ["abc\n", "  ", "abc"]) ∧
    ("0x" ∈ load_pubkeys_from_file ["abc\n", "  ", "abc"]) ∧
    load_pubkeys_from_file (["abc\n", "  ", "abc"] ++ ["abc\n", "  ", "abc"])
      = load_pubkeys_from_file ["abc\n", "  ", "abc"] := by
  refine ⟨?_, ?_, (load_pubkeys_from_file_image ["abc\n", "  ", "abc"]).2.2⟩
  · exact ((load_pubkeys_from_file_image ["abc\n", "  ", "abc"]).1 "0xabc").mpr
      ⟨"abc\n", by simp, by decide⟩
  · exact (load_pubkeys_from_file_image ["abc\n", "  ", "abc"]).2.1 "  "
      (by simp) (by decide)

end EthValidatorWatcher
